import Mathlib

/-
Verification of the enumer code generator (spaceweasel/enumer).

The generator (main.go) resolves the constants of a requested Go type into an
ordered Element list and renders a fixed text template (codeTemplate) that
defines, per type, three lookup structures and a set of methods. This file
embeds that logic shallowly:

  * Go map literals are modelled in two parts. goMapOfList is the runtime
    denotation of a map literal, sequential insertion into a finite map, which
    is exact whenever the keys are pairwise distinct. The emitted literals,
    however, have constant keys (named constants in _TypeNameMap, string
    literals in _TypeNameNameToValueMap), and the Go composite-literal rule
    makes a repeated constant key value a compile error, not an overwrite;
    goDupConstKeys and artifactHasDupKeys model that compile-time check, so a
    generated artifact has program behavior only where artifactHasDupKeys is
    false, and on that domain goMapOfList is faithful.
  * Go strings are modelled as Lean String values; the handful of Go string
    functions the generator uses (strings.HasPrefix / TrimPrefix / TrimSpace)
    are defined on the underlying character list.
  * The enum underlying type is modelled as Int (the testdata types are all
    declared over int); the bitwise operators |, &, ^, &^ of the generated
    bitmask methods are Int.lor, Int.land, Int.xor, Int.ldiff.
  * Fallible generator steps (log.Fatalf aborts in main / processType errors)
    are modelled with Except: an error value means the run aborted before the
    output file was written.
  * Go functions returning (value, error) pairs are modelled as
    Int × Option String, the second component being the error message.
-/

namespace Enumer

/-- goMapInsert models one Go map assignment m[k] = v: the resulting map agrees
with m except at k, which now holds v. -/
def goMapInsert {α β : Type} [DecidableEq α] (m : α → Option β) (k : α) (v : β) :
    α → Option β :=
  fun x => if x = k then some v else m x

/-- goMapOfList is the runtime denotation of a Go map literal: the entries are
inserted left to right into the empty map. It is exact precisely when the keys
are pairwise distinct; the emitted literals have constant keys, for which Go
rejects a duplicate at compile time (see goDupConstKeys below), so inputs with
duplicate keys produce no running artifact at all rather than an overwrite. -/
def goMapOfList {α β : Type} [DecidableEq α] (entries : List (α × β)) : α → Option β :=
  entries.foldl (fun m e => goMapInsert m e.1 e.2) (fun _ => none)

/-- goDupConstKeys models the Go composite-literal rule (it is an error to
specify multiple elements with the same constant key value, enforced by the
compiler as duplicate key in map literal): true when the entry list repeats a
key, in which case a source file holding the literal fails Go compilation. -/
def goDupConstKeys {α β : Type} [DecidableEq α] (entries : List (α × β)) : Bool :=
  !decide (entries.map Prod.fst).Nodup

theorem goMapFold_no_key {α β : Type} [DecidableEq α] (l : List (α × β))
    (m : α → Option β) (k : α) (h : ∀ p ∈ l, p.1 ≠ k) :
    l.foldl (fun m e => goMapInsert m e.1 e.2) m k = m k := by
  induction l generalizing m with
  | nil => rfl
  | cons p t ih =>
    have hp : p.1 ≠ k := h p (List.mem_cons_self p t)
    have ht : ∀ q ∈ t, q.1 ≠ k := fun q hq => h q (List.mem_cons_of_mem p hq)
    simp only [List.foldl_cons]
    rw [ih _ ht]
    simp only [goMapInsert]
    rw [if_neg (fun hk => hp hk.symm)]

theorem goMapFold_sound {α β : Type} [DecidableEq α] (l : List (α × β))
    (m : α → Option β) (k : α) (v : β)
    (h : l.foldl (fun m e => goMapInsert m e.1 e.2) m k = some v) :
    (k, v) ∈ l ∨ m k = some v := by
  induction l generalizing m with
  | nil => exact Or.inr h
  | cons p t ih =>
    simp only [List.foldl_cons] at h
    rcases ih _ h with hmem | hbase
    · exact Or.inl (List.mem_cons_of_mem p hmem)
    · simp only [goMapInsert] at hbase
      by_cases hk : k = p.1
      · rw [if_pos hk] at hbase
        left
        have : (k, v) = p := by
          cases p
          simp_all
        rw [this]
        exact List.mem_cons_self p t
      · rw [if_neg hk] at hbase
        exact Or.inr hbase

theorem goMapOfList_sound {α β : Type} [DecidableEq α] (l : List (α × β))
    (k : α) (v : β) (h : goMapOfList l k = some v) : (k, v) ∈ l := by
  rcases goMapFold_sound l _ k v h with hmem | hbase
  · exact hmem
  · exact absurd hbase (by simp)

theorem goMapFold_isSome {α β : Type} [DecidableEq α] (l : List (α × β))
    (m : α → Option β) (k : α)
    (h : (m k).isSome ∨ ∃ v, (k, v) ∈ l) :
    (l.foldl (fun m e => goMapInsert m e.1 e.2) m k).isSome := by
  induction l generalizing m with
  | nil =>
    rcases h with h | ⟨v, hv⟩
    · exact h
    · cases hv
  | cons p t ih =>
    simp only [List.foldl_cons]
    apply ih
    rcases h with h | ⟨v, hv⟩
    · left
      simp only [goMapInsert]
      by_cases hk : k = p.1
      · rw [if_pos hk]; rfl
      · rw [if_neg hk]; exact h
    · rcases List.mem_cons.mp hv with heq | hmem
      · left
        simp only [goMapInsert]
        have : k = p.1 := by rw [← heq]
        rw [if_pos this]
        rfl
      · exact Or.inr ⟨v, hmem⟩

theorem goMapOfList_isSome {α β : Type} [DecidableEq α] (l : List (α × β))
    (k : α) (v : β) (h : (k, v) ∈ l) : (goMapOfList l k).isSome :=
  goMapFold_isSome l _ k (Or.inr ⟨v, h⟩)

theorem goMapOfList_last {α β : Type} [DecidableEq α] (l₁ l₂ : List (α × β))
    (k : α) (v : β) (h : ∀ p ∈ l₂, p.1 ≠ k) :
    goMapOfList (l₁ ++ (k, v) :: l₂) k = some v := by
  unfold goMapOfList
  rw [List.foldl_append, List.foldl_cons, goMapFold_no_key l₂ _ k h]
  simp [goMapInsert]

/-- goMapOfList_nodup_mem: with pairwise distinct keys (the only shape of the
emitted literals the Go compiler accepts) the map sends the key of every entry
to the value of that entry. -/
theorem goMapOfList_nodup_mem {α β : Type} [DecidableEq α] (l : List (α × β))
    (hnd : (l.map Prod.fst).Nodup) (k : α) (v : β) (h : (k, v) ∈ l) :
    goMapOfList l k = some v := by
  obtain ⟨l₁, l₂, rfl⟩ := List.append_of_mem h
  refine goMapOfList_last l₁ l₂ k v ?_
  have hnd2 : (((k, v) :: l₂).map Prod.fst).Nodup := by
    rw [List.map_append] at hnd
    exact hnd.of_append_right
  have hk : k ∉ l₂.map Prod.fst := (List.nodup_cons.mp (by simpa using hnd2)).1
  intro p hp hpk
  exact hk (hpk ▸ List.mem_map_of_mem Prod.fst hp)

/-- Element mirrors the Element struct of main.go: the declared constant name,
its resolved exact value (main.go keeps it as an exact string; the model keeps
the denoted arbitrary-precision integer), and the derived display string. -/
structure Element where
  Name : String
  Value : Int
  StringValue : String
deriving DecidableEq, Repr

/-- Config bundles the generator flags read by processType and the template:
the trimprefix string, the linecomment toggle, and the four method-group
toggles (sql, json, yaml, bitmask). -/
structure Config where
  TrimPref : String
  LineComment : Bool
  SQL : Bool
  JSON : Bool
  YAML : Bool
  Bitmask : Bool
deriving DecidableEq, Repr

/-- goHasPre models strings.HasPrefix on the character level. -/
def goHasPre (s pre : String) : Bool :=
  pre.data.isPrefixOf s.data

/-- goDropPre drops the length of pre from the front of s; together with the
goHasPre guard it models strings.TrimPrefix. -/
def goDropPre (s pre : String) : String :=
  String.mk (s.data.drop pre.data.length)

/-- goTrimPre models strings.TrimPrefix: remove pre from the front of s when
it is an exact leading match, otherwise return s unchanged. -/
def goTrimPre (s pre : String) : String :=
  if goHasPre s pre then goDropPre s pre else s

/-- isGoSpace lists the ASCII whitespace characters strings.TrimSpace cuts. -/
def isGoSpace (c : Char) : Bool :=
  c = ' ' || c = '\t' || c = '\n' || c = '\r' || c = '\x0b' || c = '\x0c'

/-- goTrimSpace models strings.TrimSpace on the character level: leading and
trailing whitespace removed. -/
def goTrimSpace (s : String) : String :=
  String.mk (((s.data.dropWhile isGoSpace).reverse.dropWhile isGoSpace).reverse)

/-- deriveDisplay is the display-string computation of processType
(main.go lines 196 to 208): start from the declared name; when the configured
trim string is non-empty apply strings.TrimPrefix; when the linecomment toggle
is on and a trailing same-line comment is present and its trimmed text is
non-empty, that text replaces the result. -/
def deriveDisplay (name pre : String) (useComment : Bool) (comment : Option String) : String :=
  let sv := if pre ≠ "" then goTrimPre name pre else name
  match useComment, comment with
  | true, some c =>
    let t := goTrimSpace c
    if t ≠ "" then t else sv
  | _, _ => sv

/-- TypeMap is the runtime denotation of the generated _TypeNameMap literal:
value to display string, entries in Element order. Its keys are the named
constants, so a duplicate exact value makes the artifact fail Go compilation
(artifactHasDupKeys); the denotation is exact on every compiling artifact. -/
def TypeMap (elems : List Element) : Int → Option String :=
  goMapOfList (elems.map fun e => (e.Value, e.StringValue))

/-- TypeValues is the generated _TypeNameValues slice: every Element value in
order, duplicates preserved. -/
def TypeValues (elems : List Element) : List Int :=
  elems.map (fun e => e.Value)

/-- NameToValueMap is the runtime denotation of the generated
_TypeNameNameToValueMap literal: display string to value, entries in Element
order. Its keys are string literals, so a display-string collision makes the
artifact fail Go compilation (artifactHasDupKeys); the denotation is exact on
every compiling artifact. -/
def NameToValueMap (elems : List Element) : String → Option Int :=
  goMapOfList (elems.map fun e => (e.StringValue, e.Value))

/-- artifactHasDupKeys: true when either emitted map literal of the type
repeats a constant key (a duplicate exact value in _TypeNameMap or a duplicate
display string in _TypeNameNameToValueMap), in which case the generated file
is rejected by the Go compiler and no lookup table ever exists. -/
def artifactHasDupKeys (elems : List Element) : Bool :=
  goDupConstKeys (elems.map fun e => (e.Value, e.StringValue))
  || goDupConstKeys (elems.map fun e => (e.StringValue, e.Value))

/-- StringMethod is the generated String method: the mapped display string, or
the fallback TypeName(value) when the value is not a key of TypeMap. -/
def StringMethod (tn : String) (elems : List Element) (i : Int) : String :=
  match TypeMap elems i with
  | some str => str
  | none => tn ++ "(" ++ toString i ++ ")"

/-- TypeNameString is the generated TypeNameString parse function: the mapped
value with no error, or the zero value paired with an error message when the
string is not a key of NameToValueMap. -/
def TypeNameString (tn : String) (elems : List Element) (s : String) : Int × Option String :=
  match NameToValueMap elems s with
  | some v => (v, none)
  | none => (0, some (s ++ " is not a valid " ++ tn))

/-- Valid is the generated Valid method: key membership in TypeMap. -/
def Valid (elems : List Element) (i : Int) : Bool :=
  (TypeMap elems i).isSome

/-- Has is the generated Has method: bitwise AND against the flag is nonzero. -/
def Has (i flag : Int) : Bool :=
  decide (Int.land i flag ≠ 0)

/-- HasAny is the generated HasAny method: Has holds for at least one flag. -/
def HasAny (i : Int) (flags : List Int) : Bool :=
  flags.any (fun f => Has i f)

/-- HasAll is the generated HasAll method: Has holds for every flag. -/
def HasAll (i : Int) (flags : List Int) : Bool :=
  flags.all (fun f => Has i f)

/-- Set is the generated Set method: fold bitwise OR over the flags. -/
def Set (i : Int) (flags : List Int) : Int :=
  flags.foldl Int.lor i

/-- Clear is the generated Clear method: fold the Go andnot operator over the
flags; andnot on integers is Int.ldiff. -/
def Clear (i : Int) (flags : List Int) : Int :=
  flags.foldl Int.ldiff i

/-- Toggle is the generated Toggle method: fold bitwise XOR over the flags. -/
def Toggle (i : Int) (flags : List Int) : Int :=
  flags.foldl Int.xor i

/-- JSONData models what json.Unmarshal into a string can see: a JSON string,
or any other well-formed JSON value (which makes the unmarshal of a string
fail, leaving the receiver untouched). -/
inductive JSONData where
  | jstring (s : String)
  | jother (raw : String)
deriving DecidableEq, Repr

/-- UnmarshalJSON is the generated UnmarshalJSON method: on a JSON string the
receiver is assigned the parse result (zero value on parse failure) and the
parse error is returned; on any other JSON value an error is returned and the
receiver keeps its previous value. -/
def UnmarshalJSON (tn : String) (elems : List Element) (recv : Int) (d : JSONData) :
    Int × Option String :=
  match d with
  | .jstring s => TypeNameString tn elems s
  | .jother raw => (recv, some (tn ++ " should be a string, got " ++ raw))

/-- ScanValue models the dynamic value handed to the generated Scan method:
nil, a string, a byte slice (carried here as its string contents), or a value
of any other dynamic type (carried as the printed type name). -/
inductive ScanValue where
  | nullValue
  | stringValue (s : String)
  | bytesValue (s : String)
  | otherValue (td : String)
deriving DecidableEq, Repr

/-- Scan is the generated Scan method: nil returns immediately with no error
and the receiver untouched; string and byte-slice input assign the receiver
the parse result and return the parse error; any other input type returns an
error naming that type, with the receiver untouched. -/
def Scan (tn : String) (elems : List Element) (recv : Int) (v : ScanValue) :
    Int × Option String :=
  match v with
  | .nullValue => (recv, none)
  | .stringValue s => TypeNameString tn elems s
  | .bytesValue s => TypeNameString tn elems s
  | .otherValue td => (recv, some ("cannot scan type " ++ td ++ " into " ++ tn))

/-- ConstDecl is one constant record of the already type-checked symbol table,
in declaration order across the source files: the declared name, the name of
its resolved static type (two named types of one package are identical exactly
when their names agree; an untyped constant carries a tag that is no declared
type name), its exact value, and its trailing same-line comment text. -/
structure ConstDecl where
  Name : String
  TypeName : String
  Value : Int
  Comment : Option String
deriving DecidableEq, Repr

/-- mkElement builds one Element from a constant record, deriving its display
string as processType does. -/
def mkElement (cfg : Config) (d : ConstDecl) : Element :=
  { Name := d.Name, Value := d.Value,
    StringValue := deriveDisplay d.Name cfg.TrimPref cfg.LineComment d.Comment }

/-- processType mirrors processType of main.go: fail when the requested type
name is not in the package scope; otherwise keep, in declaration order, the
constants whose static type is identical to the target, building each Element
with deriveDisplay. -/
def processType (scope : List String) (decls : List ConstDecl) (cfg : Config)
    (typeName : String) : Except String (List Element) :=
  if typeName ∈ scope then
    Except.ok ((decls.filter (fun d => d.TypeName = typeName)).map (mkElement cfg))
  else
    Except.error ("type " ++ typeName ++ " not found")

/-- processAll mirrors the loop of main over the requested types: the first
processType error aborts the run, an empty Element list aborts the run, and
otherwise each type contributes its Element list. -/
def processAll (scope : List String) (decls : List ConstDecl) (cfg : Config) :
    List String → Except String (List (String × List Element))
  | [] => Except.ok []
  | t :: ts =>
    match processType scope decls cfg t with
    | Except.error e => Except.error ("Failed to process type " ++ t ++ ": " ++ e)
    | Except.ok els =>
      if els = [] then Except.error ("No constants found for type " ++ t)
      else (processAll scope decls cfg ts).map (fun rest => (t, els) :: rest)

/-- sortTypes mirrors main: the comma-split type names are whitespace-trimmed
and sorted, fixing the deterministic emission order. -/
def sortTypes (raw : List String) : List String :=
  (raw.map goTrimSpace).mergeSort (fun a b => decide (a ≤ b))

/-- GenSection names the per-type segments of codeTemplate in the order the
template text defines them: the three lookup structures, the always-present
base method group, and the four optional groups. -/
inductive GenSection where
  | mapLookup
  | valuesList
  | nameToValueLookup
  | baseMethods
  | bitmaskMethods
  | jsonMethods
  | yamlMethods
  | sqlMethods
deriving DecidableEq, Repr

/-- typeSections is the per-type segment order of codeTemplate: _TypeNameMap,
_TypeNameValues, _TypeNameNameToValueMap, the base methods, then the bitmask,
json, yaml and sql groups exactly when their toggles are on, in that textual
template order. -/
def typeSections (cfg : Config) : List GenSection :=
  [GenSection.mapLookup, GenSection.valuesList, GenSection.nameToValueLookup,
   GenSection.baseMethods]
  ++ (if cfg.Bitmask then [GenSection.bitmaskMethods] else [])
  ++ (if cfg.JSON then [GenSection.jsonMethods] else [])
  ++ (if cfg.YAML then [GenSection.yamlMethods] else [])
  ++ (if cfg.SQL then [GenSection.sqlMethods] else [])

/-- emitSections models the range loop of codeTemplate over the type list:
each type appends its full segment list to the output. -/
def emitSections (cfg : Config) (ts : List String) : List (String × GenSection) :=
  ts.foldl (fun acc t => acc ++ (typeSections cfg).map (fun s => (t, s))) []

/-- run is the generator pipeline of main once the symbol table is loaded:
trim and sort the requested type names, resolve every type (aborting on the
first failure), and only then emit the output artifact. The Except value is
the abort: no output exists unless every type resolved. -/
def run (scope : List String) (decls : List ConstDecl) (cfg : Config)
    (raw : List String) : Except String (List (String × GenSection)) :=
  (processAll scope decls cfg (sortTypes raw)).map
    (fun _ => emitSections cfg (sortTypes raw))

/-- FlagToggle names the four optional-group command line toggles. -/
inductive FlagToggle where
  | sqlT
  | jsonT
  | yamlT
  | bitmaskT
deriving DecidableEq, Repr

/-- applyToggle turns one toggle on in the configuration. -/
def applyToggle (cfg : Config) : FlagToggle → Config
  | .sqlT => { cfg with SQL := true }
  | .jsonT => { cfg with JSON := true }
  | .yamlT => { cfg with YAML := true }
  | .bitmaskT => { cfg with Bitmask := true }

/-- configOfToggles folds the supplied toggles over a base configuration, in
supply order. -/
def configOfToggles (base : Config) (ts : List FlagToggle) : Config :=
  ts.foldl applyToggle base

/-- statusElems is the Status enum of the testdata (Pending, Running, Success,
Failure by iota) as resolved Elements. -/
def statusElems : List Element :=
  [⟨"Pending", 0, "Pending"⟩, ⟨"Running", 1, "Running"⟩,
   ⟨"Success", 2, "Success"⟩, ⟨"Failure", 3, "Failure"⟩]

/-- permElems is the Permission flag enum of the testdata (Read, Write,
Execute, Delete by shifted iota) as resolved Elements. -/
def permElems : List Element :=
  [⟨"Read", 1, "Read"⟩, ⟨"Write", 2, "Write"⟩,
   ⟨"Execute", 4, "Execute"⟩, ⟨"Delete", 8, "Delete"⟩]

/-- cex2Decls: two constants of type T whose line comments both read x, giving
both Elements the same derived display string under the linecomment toggle. -/
def cex2Decls : List ConstDecl :=
  [⟨"A", "T", 1, some "x"⟩, ⟨"B", "T", 2, some "x"⟩]

/-- cfgLineComment is a configuration with only the linecomment toggle on. -/
def cfgLineComment : Config :=
  ⟨"", true, false, false, false, false⟩

/-- cex2Elems is what processType resolves cex2Decls to: a display-string
collision on x. -/
def cex2Elems : List Element :=
  [⟨"A", 1, "x"⟩, ⟨"B", 2, "x"⟩]

/-- stringDataExt: two strings with the same character list are equal. -/
theorem stringDataExt {s t : String} (h : s.data = t.data) : s = t := by
  cases s
  cases t
  simp_all

/-- intTestBitExt: two integers with the same bits are equal. This carries the
Nat testBit extensionality over the two-complement encoding of Int. -/
theorem intTestBitExt {m n : Int} (h : ∀ k, m.testBit k = n.testBit k) : m = n := by
  cases m with
  | ofNat a =>
    cases n with
    | ofNat b =>
      exact congrArg Int.ofNat (Nat.eq_of_testBit_eq fun k => h k)
    | negSucc b =>
      exfalso
      have ha : Nat.testBit a (a + b) = false :=
        Nat.testBit_eq_false_of_lt (lt_of_lt_of_le (Nat.lt_two_pow a)
          (Nat.pow_le_pow_right (by norm_num) (Nat.le_add_right a b)))
      have hb : Nat.testBit b (a + b) = false :=
        Nat.testBit_eq_false_of_lt (lt_of_lt_of_le (Nat.lt_two_pow b)
          (Nat.pow_le_pow_right (by norm_num) (Nat.le_add_left b a)))
      have hk := h (a + b)
      rw [show (Int.ofNat a).testBit (a + b) = Nat.testBit a (a + b) from rfl,
          show (Int.negSucc b).testBit (a + b) = !(Nat.testBit b (a + b)) from rfl,
          ha, hb] at hk
      exact Bool.noConfusion hk
  | negSucc a =>
    cases n with
    | ofNat b =>
      exfalso
      have ha : Nat.testBit a (a + b) = false :=
        Nat.testBit_eq_false_of_lt (lt_of_lt_of_le (Nat.lt_two_pow a)
          (Nat.pow_le_pow_right (by norm_num) (Nat.le_add_right a b)))
      have hb : Nat.testBit b (a + b) = false :=
        Nat.testBit_eq_false_of_lt (lt_of_lt_of_le (Nat.lt_two_pow b)
          (Nat.pow_le_pow_right (by norm_num) (Nat.le_add_left b a)))
      have hk := h (a + b)
      rw [show (Int.negSucc a).testBit (a + b) = !(Nat.testBit a (a + b)) from rfl,
          show (Int.ofNat b).testBit (a + b) = Nat.testBit b (a + b) from rfl,
          ha, hb] at hk
      exact Bool.noConfusion hk
    | negSucc b =>
      exact congrArg Int.negSucc (Nat.eq_of_testBit_eq fun k => Bool.not_inj (h k))

/-- TypeMap_sound: a hit in the value-to-string table comes from an Element of
that exact value and display string. -/
theorem TypeMap_sound (elems : List Element) (i : Int) (s : String)
    (h : TypeMap elems i = some s) :
    ∃ e ∈ elems, e.Value = i ∧ e.StringValue = s := by
  have hmem := goMapOfList_sound _ _ _ h
  obtain ⟨e, he, heq⟩ := List.mem_map.mp hmem
  refine ⟨e, he, ?_, ?_⟩
  · exact congrArg Prod.fst heq
  · exact congrArg Prod.snd heq

/-- NameToValueMap_sound: a hit in the string-to-value table comes from an
Element of that exact display string and value. -/
theorem NameToValueMap_sound (elems : List Element) (s : String) (v : Int)
    (h : NameToValueMap elems s = some v) :
    ∃ e ∈ elems, e.StringValue = s ∧ e.Value = v := by
  have hmem := goMapOfList_sound _ _ _ h
  obtain ⟨e, he, heq⟩ := List.mem_map.mp hmem
  refine ⟨e, he, ?_, ?_⟩
  · exact congrArg Prod.fst heq
  · exact congrArg Prod.snd heq

/-- TypeMap_isSome_of_mem: the value of every Element is a key of the
value-to-string table. -/
theorem TypeMap_isSome_of_mem {elems : List Element} {e : Element} (he : e ∈ elems) :
    (TypeMap elems e.Value).isSome :=
  goMapOfList_isSome _ _ e.StringValue
    (List.mem_map_of_mem (fun e => (e.Value, e.StringValue)) he)

/-- NameToValueMap_isSome_of_mem: the display string of every Element is a key
of the string-to-value table. -/
theorem NameToValueMap_isSome_of_mem {elems : List Element} {e : Element} (he : e ∈ elems) :
    (NameToValueMap elems e.StringValue).isSome :=
  goMapOfList_isSome _ _ e.Value
    (List.mem_map_of_mem (fun e => (e.StringValue, e.Value)) he)

/-- Claim C5: on the underlying integer representation, Set of one flag is
idempotent, Clear of one flag is idempotent, and Toggle of one flag is a
self-inverse, for every value v and flag f. -/
theorem claim5_bitmask_laws (v f : Int) :
    Set (Set v [f]) [f] = Set v [f]
    ∧ Clear (Clear v [f]) [f] = Clear v [f]
    ∧ Toggle (Toggle v [f]) [f] = v := by
  refine ⟨?_, ?_, ?_⟩
  · show Int.lor (Int.lor v f) f = Int.lor v f
    refine intTestBitExt fun k => ?_
    simp only [Int.testBit_lor]
    cases v.testBit k <;> cases f.testBit k <;> rfl
  · show Int.ldiff (Int.ldiff v f) f = Int.ldiff v f
    refine intTestBitExt fun k => ?_
    simp only [Int.testBit_ldiff]
    cases v.testBit k <;> cases f.testBit k <;> rfl
  · show Int.xor (Int.xor v f) f = v
    refine intTestBitExt fun k => ?_
    simp only [Int.testBit_lxor]
    cases v.testBit k <;> cases f.testBit k <;> rfl

/-- Claim C3: the generated Valid method returns true exactly when the value
equals the exact value of some resolved Element; in particular the bitwise OR
of two valid flags is valid only when that exact combined value was itself
declared. -/
theorem claim3_valid_membership (elems : List Element) (i : Int) :
    (Valid elems i = true ↔ ∃ e ∈ elems, e.Value = i)
    ∧ ∀ f g : Int, Valid elems f = true → Valid elems g = true →
        (¬ ∃ e ∈ elems, e.Value = Int.lor f g) → Valid elems (Int.lor f g) = false := by
  have hiff : ∀ j : Int, Valid elems j = true ↔ ∃ e ∈ elems, e.Value = j := by
    intro j
    constructor
    · intro h
      obtain ⟨s, hs⟩ := Option.isSome_iff_exists.mp h
      obtain ⟨e, he, hv, _⟩ := TypeMap_sound elems j s hs
      exact ⟨e, he, hv⟩
    · rintro ⟨e, he, rfl⟩
      exact TypeMap_isSome_of_mem he
  refine ⟨hiff i, ?_⟩
  intro f g _ _ hno
  cases hb : Valid elems (Int.lor f g) with
  | false => rfl
  | true => exact absurd ((hiff (Int.lor f g)).mp hb) hno

/-- Claim C10: the generated String method is total; for a value that is not a
key of the value-to-string table it returns the fallback string TypeName(v)
with the decimal value. -/
theorem claim10_string_fallback (tn : String) (elems : List Element) (i : Int)
    (h : TypeMap elems i = none) :
    StringMethod tn elems i = tn ++ "(" ++ toString i ++ ")" := by
  simp [StringMethod, h]

/-- Witness for claim C10 at the Status enum and the unmapped value 9. -/
theorem claim10_witness :
    StringMethod "Status" statusElems 9 = "Status" ++ "(" ++ toString (9 : Int) ++ ")" :=
  claim10_string_fallback "Status" statusElems 9 (by decide)

/-- Claim C9: on a parse failure the generated parse function returns the zero
value together with the error, and therefore JSON unmarshaling and storage
scan of a well-formed but invalid string overwrite the receiver with the zero
value rather than leaving it unchanged. -/
theorem claim9_zero_on_parse_failure (tn : String) (elems : List Element) (recv : Int)
    (s : String) (h : NameToValueMap elems s = none) :
    TypeNameString tn elems s = (0, some (s ++ " is not a valid " ++ tn))
    ∧ UnmarshalJSON tn elems recv (JSONData.jstring s)
        = (0, some (s ++ " is not a valid " ++ tn))
    ∧ Scan tn elems recv (ScanValue.stringValue s)
        = (0, some (s ++ " is not a valid " ++ tn)) := by
  have h1 : TypeNameString tn elems s = (0, some (s ++ " is not a valid " ++ tn)) := by
    simp [TypeNameString, h]
  exact ⟨h1, h1, h1⟩

/-- Witness for claim C9 at the Status enum, the invalid string bogus, and the
nonzero receiver 5, which ends up overwritten with 0. -/
theorem claim9_witness :
    TypeNameString "Status" statusElems "bogus"
        = (0, some ("bogus" ++ " is not a valid " ++ "Status"))
    ∧ UnmarshalJSON "Status" statusElems 5 (JSONData.jstring "bogus")
        = (0, some ("bogus" ++ " is not a valid " ++ "Status"))
    ∧ Scan "Status" statusElems 5 (ScanValue.stringValue "bogus")
        = (0, some ("bogus" ++ " is not a valid " ++ "Status")) :=
  claim9_zero_on_parse_failure "Status" statusElems 5 "bogus" (by decide)

/-- Claim C2 (code bug, evaluated at the failing input): two constants of the
target type with colliding derived display strings (here via line comments
both reading x). The generator resolves them without complaint, but the
emitted _TypeNameNameToValueMap literal then repeats the constant string key
x, so the generated file is rejected by the Go compiler; no silent
last-write-wins table exists, although the spec declares the collision an
accepted ambiguity resolved by last declaration wins, which is what the
runtime-insertion denotation (third conjunct) would give. -/
theorem claim2_collision_code_bug :
    processType ["T"] cex2Decls cfgLineComment "T" = Except.ok cex2Elems
    ∧ goDupConstKeys (cex2Elems.map fun e => (e.StringValue, e.Value)) = true
    ∧ artifactHasDupKeys cex2Elems = true
    ∧ NameToValueMap cex2Elems "x" = some 2 := by
  refine ⟨rfl, by decide, by decide, by decide⟩

/-- Claim C1: for every resolved Element e of a type whose generated artifact
the Go compiler accepts (no repeated constant key in either emitted map
literal, the only case in which the artifact has any behavior at all), parsing
the display string of the value of e yields the value of e back with no
error; on such artifacts values and display strings are pairwise distinct, so
the collision exception of the claim never fires. -/
theorem claim1_roundtrip (tn : String) (elems : List Element) (e : Element)
    (he : e ∈ elems) (hc : artifactHasDupKeys elems = false) :
    TypeNameString tn elems (StringMethod tn elems e.Value) = (e.Value, none) := by
  have hpair : goDupConstKeys (elems.map fun e => (e.Value, e.StringValue)) = false
      ∧ goDupConstKeys (elems.map fun e => (e.StringValue, e.Value)) = false := by
    have := hc
    unfold artifactHasDupKeys at this
    exact Bool.or_eq_false_iff.mp this
  have hv : ((elems.map fun e => (e.Value, e.StringValue)).map Prod.fst).Nodup := by
    have := hpair.1
    unfold goDupConstKeys at this
    simpa using this
  have hs : ((elems.map fun e => (e.StringValue, e.Value)).map Prod.fst).Nodup := by
    have := hpair.2
    unfold goDupConstKeys at this
    simpa using this
  have hdisp : TypeMap elems e.Value = some e.StringValue :=
    goMapOfList_nodup_mem _ hv _ _
      (List.mem_map_of_mem (fun e => (e.Value, e.StringValue)) he)
  have hparse : NameToValueMap elems e.StringValue = some e.Value :=
    goMapOfList_nodup_mem _ hs _ _
      (List.mem_map_of_mem (fun e => (e.StringValue, e.Value)) he)
  have hsm : StringMethod tn elems e.Value = e.StringValue := by
    simp [StringMethod, hdisp]
  rw [hsm]
  simp [TypeNameString, hparse]

/-- Witness for claim C1 at the Status enum (whose artifact compiles) and the
Element Pending. -/
theorem claim1_witness :
    TypeNameString "Status" statusElems (StringMethod "Status" statusElems 0) = (0, none) :=
  claim1_roundtrip "Status" statusElems ⟨"Pending", 0, "Pending"⟩ (by decide) (by decide)

/-- Claim C4: the derived display string starts from the declared name; a
non-empty configured trim string that is an exact leading match is stripped
exactly once (otherwise the name is unchanged and no error occurs); an active
comment with non-empty trimmed text replaces the result entirely, superseding
any trimming; an inactive or blank comment changes nothing. -/
theorem claim4_display_precedence (name pre t : String) (uc : Bool) (c : Option String) :
    (goTrimSpace t ≠ "" → deriveDisplay name pre true (some t) = goTrimSpace t)
    ∧ (pre ≠ "" → goHasPre name pre = true →
        deriveDisplay name pre uc none = goDropPre name pre
        ∧ pre ++ goDropPre name pre = name)
    ∧ ((pre = "" ∨ goHasPre name pre = false) → deriveDisplay name pre uc none = name)
    ∧ deriveDisplay name pre false c = deriveDisplay name pre false none
    ∧ (goTrimSpace t = "" → deriveDisplay name pre true (some t)
        = deriveDisplay name pre true none) := by
  refine ⟨?_, ?_, ?_, ?_, ?_⟩
  · intro h
    simp [deriveDisplay, h]
  · intro hp hm
    constructor
    · cases uc <;> simp [deriveDisplay, goTrimPre, hp, hm]
    · have hdata : pre.data ++ List.drop pre.data.length name.data = name.data :=
        List.prefix_iff_eq_append.mp (List.isPrefixOf_iff_prefix.mp hm)
      refine stringDataExt ?_
      rw [String.data_append]
      exact hdata
  · intro h
    rcases h with h | h
    · subst h
      cases uc <;> simp [deriveDisplay]
    · by_cases hp : pre = ""
      · subst hp
        cases uc <;> simp [deriveDisplay]
      · cases uc <;> simp [deriveDisplay, goTrimPre, hp, h]
  · cases c <;> rfl
  · intro h
    simp [deriveDisplay, h]

/-- Claim C7, amended: the generated Scan stores the parsed value for string
and byte-slice input; a null input is a no-op returning no error and leaving
the receiver unchanged (so it holds the zero value only when it already did,
which the counterexample below pins down against the stated claim); input of
any other type returns an error naming the unsupported source type and leaves
the receiver unchanged. -/
theorem claim7_scan (tn : String) (elems : List Element) (recv : Int)
    (s td : String) (v : Int) (hv : NameToValueMap elems s = some v) :
    Scan tn elems recv ScanValue.nullValue = (recv, none)
    ∧ Scan tn elems recv (ScanValue.stringValue s) = (v, none)
    ∧ Scan tn elems recv (ScanValue.bytesValue s) = (v, none)
    ∧ Scan tn elems recv (ScanValue.otherValue td)
        = (recv, some ("cannot scan type " ++ td ++ " into " ++ tn)) := by
  have h1 : TypeNameString tn elems s = (v, none) := by
    simp [TypeNameString, hv]
  exact ⟨rfl, h1, h1, rfl⟩

/-- Witness for claim C7 at the Status enum with receiver 7 and the valid
display string Running. -/
theorem claim7_witness :
    Scan "Status" statusElems 7 ScanValue.nullValue = (7, none)
    ∧ Scan "Status" statusElems 7 (ScanValue.stringValue "Running") = (1, none)
    ∧ Scan "Status" statusElems 7 (ScanValue.bytesValue "Running") = (1, none)
    ∧ Scan "Status" statusElems 7 (ScanValue.otherValue "float64")
        = (7, some ("cannot scan type " ++ "float64" ++ " into " ++ "Status")) :=
  claim7_scan "Status" statusElems 7 "Running" "float64" 1 (by decide)

/-- Counterexample to claim C7 as stated: a null input on a receiver holding
3 returns no error and leaves the receiver holding 3, not the zero value. -/
theorem claim7_counterexample :
    Scan "Status" statusElems 3 ScanValue.nullValue = (3, none) ∧ (3 : Int) ≠ 0 :=
  ⟨rfl, by decide⟩

/-- processAll_ok_iff: resolving a list of type names succeeds exactly when
every name is in scope and has at least one constant of identical type. -/
theorem processAll_ok_iff (scope : List String) (decls : List ConstDecl) (cfg : Config)
    (l : List String) :
    (∃ r, processAll scope decls cfg l = Except.ok r) ↔
      ∀ t ∈ l, t ∈ scope ∧ (decls.filter (fun d => d.TypeName = t)) ≠ [] := by
  induction l with
  | nil => simp [processAll]
  | cons t ts ih =>
    by_cases hsc : t ∈ scope
    · by_cases hemp : decls.filter (fun d => d.TypeName = t) = []
      · have hmap : (decls.filter (fun d => d.TypeName = t)).map (mkElement cfg) = [] := by
          rw [hemp]
          rfl
        simp only [processAll, processType, if_pos hsc, if_pos hmap]
        constructor
        · rintro ⟨r, hr⟩
          exact absurd hr (by simp)
        · intro hall
          exact absurd hemp (hall t (List.mem_cons_self t ts)).2
      · have hmap : (decls.filter (fun d => d.TypeName = t)).map (mkElement cfg) ≠ [] := by
          intro hx
          exact hemp (List.map_eq_nil_iff.mp hx)
        have hrec : (∃ r, (processAll scope decls cfg ts).map
              (fun rest => (t, (decls.filter (fun d => d.TypeName = t)).map (mkElement cfg))
                :: rest) = Except.ok r)
            ↔ (∃ r, processAll scope decls cfg ts = Except.ok r) := by
          cases hx : processAll scope decls cfg ts <;> simp [hx, Except.map]
        simp only [processAll, processType, if_pos hsc, if_neg hmap]
        rw [hrec, ih, List.forall_mem_cons]
        exact ⟨fun h => ⟨⟨hsc, hemp⟩, h⟩, fun h => h.2⟩
    · simp [processAll, processType, hsc]

/-- mem_sortTypes: membership in the trimmed sorted type list corresponds to
membership in the raw list up to trimming. -/
theorem mem_sortTypes (raw : List String) (t : String) :
    t ∈ sortTypes raw ↔ ∃ u ∈ raw, goTrimSpace u = t := by
  unfold sortTypes
  rw [List.mem_mergeSort, List.mem_map]

/-- Claim C6: the run aborts, producing no output for any requested type,
exactly when some requested type name (after trimming) is unknown in the
package scope or has zero constants of identical type; when every requested
type resolves to a non-empty constant list, an output artifact exists. -/
theorem claim6_resolution_failure (scope : List String) (decls : List ConstDecl)
    (cfg : Config) (raw : List String) :
    (∃ out, run scope decls cfg raw = Except.ok out) ↔
      ∀ u ∈ raw, goTrimSpace u ∈ scope
        ∧ (decls.filter (fun d => d.TypeName = goTrimSpace u)) ≠ [] := by
  have h1 : (∃ out, run scope decls cfg raw = Except.ok out)
      ↔ (∃ r, processAll scope decls cfg (sortTypes raw) = Except.ok r) := by
    unfold run
    cases hx : processAll scope decls cfg (sortTypes raw) <;> simp [hx, Except.map]
  rw [h1, processAll_ok_iff]
  constructor
  · intro h u hu
    exact h (goTrimSpace u) ((mem_sortTypes raw (goTrimSpace u)).mpr ⟨u, hu, rfl⟩)
  · intro h t ht
    obtain ⟨u, hu, rfl⟩ := (mem_sortTypes raw t).mp ht
    exact h u hu

/-- emitSections_flatMap: the emitted output is the concatenation of one
complete per-type block per type, in type-list order. -/
theorem emitSections_flatMap (cfg : Config) (ts : List String) :
    emitSections cfg ts
      = ts.flatMap (fun t => (typeSections cfg).map (fun s => (t, s))) := by
  have haux : ∀ (l : List String) (acc : List (String × GenSection)),
      l.foldl (fun acc t => acc ++ (typeSections cfg).map (fun s => (t, s))) acc
        = acc ++ l.flatMap (fun t => (typeSections cfg).map (fun s => (t, s))) := by
    intro l
    induction l with
    | nil => intro acc; simp
    | cons t l ihl => intro acc; simp [List.foldl_cons, ihl, List.flatMap_cons]
  simpa using haux ts []

/-- sortTypes_perm: the trimmed sorted type list does not depend on the order
in which the type names were supplied. -/
theorem sortTypes_perm (ts₁ ts₂ : List String) (h : ts₁.Perm ts₂) :
    sortTypes ts₁ = sortTypes ts₂ := by
  have htrans : ∀ a b c : String,
      (fun a b : String => decide (a ≤ b)) a b = true →
      (fun a b : String => decide (a ≤ b)) b c = true →
      (fun a b : String => decide (a ≤ b)) a c = true := by
    intro a b c h1 h2
    exact decide_eq_true (le_trans (of_decide_eq_true h1) (of_decide_eq_true h2))
  have htotal : ∀ a b : String,
      ((fun a b : String => decide (a ≤ b)) a b
        || (fun a b : String => decide (a ≤ b)) b a) = true := by
    intro a b
    rcases le_total a b with h' | h' <;> simp [h']
  have hsorted : ∀ l : List String,
      List.Sorted (fun a b : String => a ≤ b)
        (l.mergeSort (fun a b : String => decide (a ≤ b))) := by
    intro l
    exact (List.sorted_mergeSort htrans htotal l).imp (fun h' => of_decide_eq_true h')
  refine List.eq_of_perm_of_sorted ?_ (hsorted (ts₁.map goTrimSpace))
    (hsorted (ts₂.map goTrimSpace))
  exact ((List.mergeSort_perm _ _).trans (h.map goTrimSpace)).trans
    (List.mergeSort_perm _ _).symm

/-- configOfToggles_perm: the configuration built from the toggles does not
depend on the order in which the toggles were supplied. -/
theorem configOfToggles_perm (base : Config) (tg₁ tg₂ : List FlagToggle)
    (h : tg₁.Perm tg₂) :
    configOfToggles base tg₁ = configOfToggles base tg₂ := by
  haveI : RightCommutative applyToggle :=
    ⟨by intro b a₁ a₂; cases a₁ <;> cases a₂ <;> rfl⟩
  exact h.foldl_eq base

/-- Claim C8: the emitter iterates the configured type names in a fixed
deterministic order independent of the supplied order, the per-type output is
one contiguous block per type (types are never interleaved), each block holds
the three lookup structures, the base group and the enabled optional groups in
the fixed template order, and none of this depends on the order in which the
feature toggles were supplied. -/
theorem claim8_emitter_order (base : Config) (ts₁ ts₂ : List String)
    (tg₁ tg₂ : List FlagToggle) (hts : ts₁.Perm ts₂) (htg : tg₁.Perm tg₂) :
    emitSections (configOfToggles base tg₁) (sortTypes ts₁)
      = emitSections (configOfToggles base tg₂) (sortTypes ts₂)
    ∧ emitSections (configOfToggles base tg₁) (sortTypes ts₁)
      = (sortTypes ts₁).flatMap
          (fun t => (typeSections (configOfToggles base tg₁)).map (fun s => (t, s))) := by
  constructor
  · rw [sortTypes_perm ts₁ ts₂ hts, configOfToggles_perm base tg₁ tg₂ htg]
  · exact emitSections_flatMap _ _

/-- Witness for claim C8: two type names and two toggles supplied in swapped
orders produce identical output. -/
theorem claim8_witness :
    emitSections (configOfToggles ⟨"", false, false, false, false, false⟩
        [FlagToggle.jsonT, FlagToggle.sqlT]) (sortTypes ["B", "A"])
      = emitSections (configOfToggles ⟨"", false, false, false, false, false⟩
          [FlagToggle.sqlT, FlagToggle.jsonT]) (sortTypes ["A", "B"])
    ∧ emitSections (configOfToggles ⟨"", false, false, false, false, false⟩
        [FlagToggle.jsonT, FlagToggle.sqlT]) (sortTypes ["B", "A"])
      = (sortTypes ["B", "A"]).flatMap
          (fun t => (typeSections (configOfToggles ⟨"", false, false, false, false, false⟩
            [FlagToggle.jsonT, FlagToggle.sqlT])).map (fun s => (t, s))) :=
  claim8_emitter_order ⟨"", false, false, false, false, false⟩ ["B", "A"] ["A", "B"]
    [FlagToggle.jsonT, FlagToggle.sqlT] [FlagToggle.sqlT, FlagToggle.jsonT]
    (by decide) (by decide)

end Enumer
